import Mathlib

/-! Shallow embedding of the title-resolution and enrichment engine of the
movie data pipeline (`etl.py`): the title normalizer, the candidate
generator, the enrichment resolver, and the release-year extraction.
Strings are modelled as Lean strings; the character-level work is done on
`List Char` (Unicode scalar values).

Modelling notes:
* The Python regular expressions of the source are embedded as executable
  matchers with the same matching behaviour; the character classes of
  a backslash-s and a backslash-d are modelled on their ASCII ranges, and
  titles are assumed free of newline characters (Python treats a dot and
  an end-anchor specially around a trailing newline).
* The calls to the standard library routine that performs NFKD
  normalization, and the predicate recognising combining characters, are
  modelled character-wise by a table covering the characters used in this
  development (U+00E9, U+00B4, U+FB01, U+0301); all other characters are
  taken to be NFKD-inert and non-combining, which matches the Unicode data
  for every character appearing in the concrete inputs below.
* The float conversion is modelled on plain decimal literals (optional
  sign, digits, optional fractional part); other accepted Python forms
  (exponents, infinities, underscores, surrounding whitespace) are not
  modelled.
* The external lookup service is modelled as a function from the index of
  the issued call to that call's outcome: either a transport-level failure
  (a network error, timeout or non-2xx status, all of which the source
  catches as one exception class) or a JSON payload.  The resolver is
  embedded together with the list of requests it issues, in order, so that
  call-counting and short-circuiting claims can be stated. -/

/-- ASCII part of the Python whitespace class backslash-s. -/
def isWsC (c : Char) : Bool :=
  c = ' ' || c = Char.ofNat 9 || c = Char.ofNat 10 || c = Char.ofNat 13 ||
    c = Char.ofNat 11 || c = Char.ofNat 12

/-- ASCII decimal digit, the backslash-d class. -/
def isDigitC (c : Char) : Bool :=
  48 ≤ c.toNat && c.toNat ≤ 57

/-- The double-quote character. -/
def quoteD : Char := Char.ofNat 34

/-- The single-quote character. -/
def quoteS : Char := Char.ofNat 39

/-- Characters stripped by the second strip call of `base_clean`:
space, double quote, single quote. -/
def isQuoteOrSpace (c : Char) : Bool :=
  c = ' ' || c = quoteD || c = quoteS

/-- Python `str.strip(chars)`: drop characters satisfying `sel` from both
ends. -/
def pyStripL (sel : Char → Bool) (l : List Char) : List Char :=
  (((l.dropWhile sel).reverse).dropWhile sel).reverse

/-- Python `str.strip()` with no argument: strip whitespace at both ends. -/
def trimL (l : List Char) : List Char := pyStripL isWsC l

/-- One pass of the substitution of every whitespace run by a single
space (the regex backslash-s-plus replaced by one space). -/
def collapseL : List Char → List Char
  | [] => []
  | [c] => if isWsC c then [' '] else [c]
  | c :: c2 :: rest =>
    if isWsC c && isWsC c2 then collapseL (c2 :: rest)
    else (if isWsC c then ' ' else c) :: collapseL (c2 :: rest)

/-- `tidy_whitespace` of the source on character lists: collapse internal
whitespace runs to single spaces and strip the ends. -/
def tidyL (l : List Char) : List Char := trimL (collapseL l)

/-- `tidy_whitespace(s)`: normalize spaces and strip leading and trailing
whitespace. -/
def tidy_whitespace (s : String) : String := String.mk (tidyL s.data)

/-- Removal of a trailing year annotation: the anchored substitution of
the pattern "whitespace, open paren, four digits, close paren, whitespace,
end" by the empty string.  The single possible match is located from the
end of the string. -/
def stripTrailingYearL (l : List Char) : List Char :=
  match (l.reverse).dropWhile isWsC with
  | c0 :: c1 :: c2 :: c3 :: c4 :: c5 :: rest =>
    if c0 = ')' && isDigitC c1 && isDigitC c2 && isDigitC c3 && isDigitC c4 && c5 = '(' then
      ((rest.dropWhile isWsC).reverse)
    else l
  | _ => l

/-- `base_clean` on character lists: remove a trailing `(YYYY)` block,
strip whitespace, strip outer quotes, and normalize whitespace. -/
def base_cleanL (l : List Char) : List Char :=
  tidyL (pyStripL isQuoteOrSpace (trimL (stripTrailingYearL l)))

/-- `base_clean(title)` of the source. -/
def base_clean (title : String) : String := String.mk (base_cleanL title.data)

/-- The trailing-article matcher: given the characters that follow a
comma (in forward order), return the matched article with its case
preserved when they consist of optional whitespace followed exactly by
"The", "A" or "An" case-insensitively. -/
def articleOf (after : List Char) : Option (List Char) :=
  let t := after.dropWhile isWsC
  let lowT := t.map Char.toLower
  if lowT = ['t', 'h', 'e'] || lowT = ['a'] || lowT = ['a', 'n'] then some t
  else none

/-- Scan the reversed title for the last comma whose tail matches the
article pattern; `after` accumulates, in forward order, the characters
already passed.  Returns the prefix before the comma and the article. -/
def findArticleSplit : List Char → List Char → Option (List Char × List Char)
  | [], _ => none
  | c :: rev, after =>
    if c = ',' then
      match articleOf after with
      | some art => some (rev.reverse, art)
      | none => findArticleSplit rev (c :: after)
    else findArticleSplit rev (c :: after)

/-- `move_trailing_article` on character lists: rewrite "Name, The" to
"The Name" (article case preserved), else return the input unchanged. -/
def move_trailing_articleL (t : List Char) : List Char :=
  match findArticleSplit t.reverse [] with
  | some (pre, art) => trimL (art ++ ' ' :: pre)
  | none => t

/-- `move_trailing_article(t)` of the source. -/
def move_trailing_article (t : String) : String :=
  String.mk (move_trailing_articleL t.data)

/-- The marker set of the first parenthetical substitution, lower-cased,
in the alternation order of the source pattern. -/
def altMarkers : List (List Char) :=
  ["a.k.a.", "aka", "original", "original title", "la", "le", "der", "el",
   "cite", "cité", "versión", "version"].map String.data

/-- Case-insensitive prefix test against an already lower-cased pattern. -/
def isPrefixCI (pat s : List Char) : Bool :=
  (s.take pat.length).map Char.toLower = pat

/-- Whether a close paren occurs somewhere in the list. -/
def hasClose (l : List Char) : Bool := l.any (fun c => c = ')')

/-- At the current position inside a parenthetical body, the length of the
first alternation marker (tried in source order) that matches here and is
followed, possibly beyond further parens, by a close paren. -/
def markerLen (s : List Char) : Option Nat :=
  altMarkers.findSome? fun m =>
    if isPrefixCI m s && hasClose (s.drop m.length) then some m.length
    else none

/-- Lazy search inside a parenthetical body: find the first position where
a marker matches (alternatives in order), then consume up to and including
the first close paren after the marker; returns the remainder. -/
def scanBody : List Char → Option (List Char)
  | [] => none
  | c :: cs =>
    match markerLen (c :: cs) with
    | some n =>
      match (List.drop n (c :: cs)).dropWhile (fun d => !(d = ')')) with
      | ')' :: r => some r
      | _ => none
    | none => scanBody cs

/-- One match attempt, at the current position, of the marker-based
parenthetical pattern (whitespace run, open paren, lazy gap, marker, lazy
gap, close paren, whitespace run); returns the remainder after the match. -/
def tryAlt (l : List Char) : Option (List Char) :=
  match l.dropWhile isWsC with
  | '(' :: r2 =>
    match scanBody r2 with
    | some r4 => some (r4.dropWhile isWsC)
    | none => none
  | _ => none

/-- Global substitution of the marker-based parenthetical pattern by a
single space.  The fuel starts at the length of the list; each match
consumes at least two characters, so the fuel never runs out. -/
def sub1Fuel : Nat → List Char → List Char
  | 0, l => l
  | _, [] => []
  | fuel + 1, c :: cs =>
    match tryAlt (c :: cs) with
    | some rest => ' ' :: sub1Fuel fuel rest
    | none => c :: sub1Fuel fuel cs

/-- One match attempt of the unconditional parenthetical pattern
(whitespace run, open paren, no close paren inside, close paren,
whitespace run); returns the remainder after the match. -/
def tryParen (l : List Char) : Option (List Char) :=
  match l.dropWhile isWsC with
  | '(' :: r2 =>
    match r2.dropWhile (fun d => !(d = ')')) with
    | ')' :: r4 => some (r4.dropWhile isWsC)
    | _ => none
  | _ => none

/-- Global substitution of the unconditional parenthetical pattern by a
single space, fuelled like `sub1Fuel`. -/
def sub2Fuel : Nat → List Char → List Char
  | 0, l => l
  | _, [] => []
  | fuel + 1, c :: cs =>
    match tryParen (c :: cs) with
    | some rest => ' ' :: sub2Fuel fuel rest
    | none => c :: sub2Fuel fuel cs

/-- `remove_parenthetical_alternates` on character lists: the marker-based
substitution, then the unconditional one, then whitespace normalization. -/
def remove_parenthetical_alternatesL (t : List Char) : List Char :=
  tidyL (sub2Fuel (sub1Fuel t.length t).length (sub1Fuel t.length t))

/-- `remove_parenthetical_alternates(t)` of the source. -/
def remove_parenthetical_alternates (t : String) : String :=
  String.mk (remove_parenthetical_alternatesL t.data)

/-- First parenthetical group with a nonempty body: scan for an open paren
followed by at least one non-close character and then a close paren. -/
def searchParenBody : List Char → Option (List Char)
  | [] => none
  | c :: cs =>
    if c = '(' then
      match cs.dropWhile (fun d => !(d = ')')) with
      | ')' :: _ =>
        if (cs.takeWhile (fun d => !(d = ')'))).isEmpty then searchParenBody cs
        else some (cs.takeWhile (fun d => !(d = ')')))
      | _ => searchParenBody cs
    else searchParenBody cs

/-- `extract_parenthetical_alternate` on character lists: the stripped
body of the first parenthetical group, if it has at most 30 characters
and no comma. -/
def extract_parenthetical_alternateL (t : List Char) : Option (List Char) :=
  match searchParenBody t with
  | none => none
  | some body =>
    if (trimL body).length ≤ 30 && !((trimL body).contains ',') then
      some (trimL body)
    else none

/-- `extract_parenthetical_alternate(t)` of the source. -/
def extract_parenthetical_alternate (t : String) : Option String :=
  (extract_parenthetical_alternateL t.data).map String.mk

/-- The combining acute accent U+0301. -/
def combiningAcute : Char := Char.ofNat 0x301

/-- Latin small letter e with acute, U+00E9. -/
def eAcute : Char := Char.ofNat 0xE9

/-- The spacing acute accent U+00B4, whose NFKD decomposition is a space
followed by the combining acute accent. -/
def acuteAccent : Char := Char.ofNat 0xB4

/-- The latin small ligature fi, U+FB01, whose NFKD decomposition is the
two letters f i. -/
def fiLigature : Char := Char.ofNat 0xFB01

/-- Character-wise NFKD decomposition, tabulated for the characters used
in this development; every other character is NFKD-inert. -/
def nfkdChar (c : Char) : List Char :=
  if c = eAcute then ['e', combiningAcute]
  else if c = acuteAccent then [' ', combiningAcute]
  else if c = fiLigature then ['f', 'i']
  else [c]

/-- Whether a character is a combining character (nonzero combining
class); among the characters of this development only U+0301 is. -/
def isCombining (c : Char) : Bool := c = combiningAcute

/-- NFKD decomposition of a character list. -/
def nfkdL (l : List Char) : List Char := (l.map nfkdChar).flatten

/-- `remove_diacritics` on character lists: NFKD-decompose and drop the
combining characters. -/
def removeDiacriticsL (l : List Char) : List Char :=
  (nfkdL l).filter (fun c => !(isCombining c))

/-- `remove_diacritics(text)` of the source, on strings. -/
def remove_diacritics (s : String) : String :=
  String.mk (removeDiacriticsL s.data)

/-- A Python value as seen by `remove_diacritics`: either a string or a
non-string value (opaquely tagged). -/
inductive PyVal where
  | str (s : String)
  | nonStr (tag : Nat)
deriving DecidableEq

/-- `remove_diacritics` including its non-string guard: a non-string
input is returned unchanged. -/
def remove_diacritics_py : PyVal → PyVal
  | .str s => .str (remove_diacritics s)
  | .nonStr t => .nonStr t

/-- The append step of the first candidate loop: skip an absent, empty or
already-present value, else append at the end. -/
def addCandidate (acc : List String) (t : Option String) : List String :=
  match t with
  | none => acc
  | some s => if !(s = "") && !(acc.contains s) then acc ++ [s] else acc

/-- The diacritic-variant loop: iterate over the snapshot of the
candidate list, appending each diacritic-stripped form that differs from
its source and is not already present in the growing list. -/
def addTranslits : List String → List String → List String
  | [], acc => acc
  | c :: rest, acc =>
    addTranslits rest
      (if !(remove_diacritics c = c) && !(acc.contains (remove_diacritics c))
       then acc ++ [remove_diacritics c] else acc)

/-- `generate_title_candidates(original_title)` of the source. -/
def generate_title_candidates (original_title : String) : List String :=
  let base := base_clean original_title
  if base = "" then []
  else
    let moved := move_trailing_article base
    let removed_paren := remove_parenthetical_alternates base
    let alt := extract_parenthetical_alternate base
    let cands := [some moved, some removed_paren, alt, some base].foldl addCandidate []
    let cands2 := addTranslits cands cands
    (cands2.filter (fun c => !(c = ""))).map tidy_whitespace

/-- The per-request parameters the resolver sends that vary: the title
candidate and the optional year hint. -/
structure Request where
  title : String
  yearHint : Option Int
deriving DecidableEq

/-- The JSON payload of a completed lookup call, with the fields the
source reads; an absent field is `none`. -/
structure OmdbPayload where
  response : String
  imdbID : Option String
  plotField : Option String
  directorField : Option String
  boxOfficeField : Option String
  runtimeField : Option String
  ratingField : Option String
deriving DecidableEq

/-- Outcome of one lookup attempt: a transport-level failure (network
error, timeout, or non-2xx status, the exception class the source
catches) or a payload. -/
inductive AttemptOutcome where
  | netFail
  | ok (payload : OmdbPayload)
deriving DecidableEq

/-- The exception that can escape the record-mapping code: the float
conversion of an unparseable rating string. -/
inductive PyErr where
  | valueError
deriving DecidableEq

/-- The enrichment record the resolver produces. -/
structure EnrichmentRecord where
  imdb_id : Option String
  plot : String
  director : String
  box_office : Option String
  runtime : Option String
  imdb_rating : Option Rat
deriving DecidableEq

/-- The all-default record of the source. -/
def defaultRecord : EnrichmentRecord :=
  { imdb_id := none, plot := "Not Available", director := "Unknown",
    box_office := none, runtime := none, imdb_rating := none }

/-- Python float conversion, modelled on plain decimal literals: optional
sign, digits, optional dot and fraction digits, at least one digit in
total; `none` when the string is not of this form (Python raises). -/
def pyFloatL (l : List Char) : Option Rat :=
  let sgn : Int := match l with
    | '-' :: _ => -1
    | _ => 1
  let l1 : List Char := match l with
    | '-' :: r => r
    | '+' :: r => r
    | _ => l
  let ip := l1.takeWhile isDigitC
  let ipv : Nat := ip.foldl (fun a c => a * 10 + (c.toNat - 48)) 0
  match l1.dropWhile isDigitC with
  | [] => if ip.isEmpty then none else some ((sgn * ipv : Int) : Rat)
  | '.' :: fp =>
    if fp.all isDigitC && (!(ip.isEmpty) || !(fp.isEmpty)) then
      some ((sgn : Rat) *
        ((ipv : Rat) + (fp.foldl (fun a c => a * 10 + (c.toNat - 48)) 0 : Nat) /
          ((10 : Rat) ^ fp.length)))
    else none
  | _ => none

/-- The rating conversion of the source: absent or the upstream sentinel
"N/A" becomes `none`; any other string is float-converted, raising a
ValueError when unparseable. -/
def ratingExc : Option String → Except PyErr (Option Rat)
  | none => Except.ok none
  | some s =>
    if s = "N/A" then Except.ok none
    else
      match pyFloatL s.data with
      | some q => Except.ok (some q)
      | none => Except.error PyErr.valueError

/-- Python truthy-or-default on an optional string field: absent or empty
yields the sentinel. -/
def orSentinel (o : Option String) (d : String) : String :=
  match o with
  | some s => if s = "" then d else s
  | none => d

/-- Mapping an authoritative payload to an enrichment record, as built by
the source's dict literal; the float conversion may raise. -/
def mapPayload (d : OmdbPayload) : Except PyErr EnrichmentRecord :=
  match ratingExc d.ratingField with
  | Except.error e => Except.error e
  | Except.ok r =>
    Except.ok
      { imdb_id := d.imdbID,
        plot := orSentinel d.plotField "Not Available",
        director := orSentinel d.directorField "Unknown",
        box_office := d.boxOfficeField,
        runtime := d.runtimeField,
        imdb_rating := r }

/-- The retry budget of the source (`API_RETRIES`). -/
def API_RETRIES : Nat := 2

/-- Outcome of the processing of one (candidate, year-variant) pair:
either the whole search finishes (with a mapped record or an escaped
exception), or the resolver advances to the next pair. -/
inductive PairOutcome where
  | done (r : Except PyErr EnrichmentRecord)
  | advance

/-- The inner retry loop of the source for one request: up to `n`
attempts; a transport failure consumes an attempt and retries, a payload
with Response "True" finishes the search with the mapped record, any
other payload breaks to the next pair.  The second component is the list
of issued requests, the third the next call index. -/
def retryLoop (svc : Nat → AttemptOutcome) (req : Request) :
    Nat → Nat → PairOutcome × List Request × Nat
  | 0, k => (PairOutcome.advance, [], k)
  | n + 1, k =>
    match svc k with
    | AttemptOutcome.netFail =>
      match retryLoop svc req n (k + 1) with
      | (res, tr, k2) => (res, req :: tr, k2)
    | AttemptOutcome.ok d =>
      if d.response = "True" then (PairOutcome.done (mapPayload d), [req], k + 1)
      else (PairOutcome.advance, [req], k + 1)

/-- The year variants the source builds for one candidate: the
year-constrained request only when the year is present and truthy (a zero
year is falsy in Python), then always the unconstrained request. -/
def variantList (year : Option Int) : List (Option Int) :=
  (match year with
   | some y => if y = 0 then [] else [some y]
   | none => []) ++ [none]

/-- The middle loop of the source over the year variants of one
candidate. -/
def variantsLoop (svc : Nat → AttemptOutcome) (cand : String) :
    List (Option Int) → Nat → PairOutcome × List Request × Nat
  | [], k => (PairOutcome.advance, [], k)
  | v :: vs, k =>
    match retryLoop svc { title := cand, yearHint := v } API_RETRIES k with
    | (PairOutcome.done r, tr, k2) => (PairOutcome.done r, tr, k2)
    | (PairOutcome.advance, tr, k2) =>
      match variantsLoop svc cand vs k2 with
      | (res, tr2, k3) => (res, tr ++ tr2, k3)

/-- The outer loop of the source over the candidate list. -/
def candLoop (svc : Nat → AttemptOutcome) (year : Option Int) :
    List String → Nat → PairOutcome × List Request × Nat
  | [], k => (PairOutcome.advance, [], k)
  | c :: cs, k =>
    match variantsLoop svc c (variantList year) k with
    | (PairOutcome.done r, tr, k2) => (PairOutcome.done r, tr, k2)
    | (PairOutcome.advance, tr, k2) =>
      match candLoop svc year cs k2 with
      | (res, tr2, k3) => (res, tr ++ tr2, k3)

/-- `fetch_omdb_data(title_candidates, year)` of the source, embedded
with the service oracle and the issued-request trace: the first
component is the result (a record, or an escaped exception), the second
the ordered list of issued requests. -/
def fetch_omdb_data (svc : Nat → AttemptOutcome) (title_candidates : List String)
    (year : Option Int) : Except PyErr EnrichmentRecord × List Request :=
  match candLoop svc year title_candidates 0 with
  | (PairOutcome.done r, tr, _) => (r, tr)
  | (PairOutcome.advance, tr, _) => (Except.ok defaultRecord, tr)

/-- A window test for the unanchored year pattern: an open paren, four
digits, a close paren, at the head of the list. -/
def yearAt : List Char → Option Int
  | c0 :: c1 :: c2 :: c3 :: c4 :: c5 :: _ =>
    if c0 = '(' && isDigitC c1 && isDigitC c2 && isDigitC c3 && isDigitC c4 && c5 = ')' then
      some (((c1.toNat - 48) * 1000 + (c2.toNat - 48) * 100 +
        (c3.toNat - 48) * 10 + (c4.toNat - 48) : Nat) : Int)
    else none
  | _ => none

/-- The unanchored search of the source for a parenthesized four-digit
group: the first window that matches, scanning left to right. -/
def searchYearL : List Char → Option Int
  | [] => none
  | c :: rest =>
    match yearAt (c :: rest) with
    | some y => some y
    | none => searchYearL rest

/-- The release-year derivation of `extract_movies`: the integer of the
first parenthesized four-digit group anywhere in the raw title, else
absent. -/
def extract_release_year (t : String) : Option Int := searchYearL t.data

/-- Whether some window of the list matches the parenthesized four-digit
group pattern. -/
def hasYearGroup : List Char → Bool
  | [] => false
  | c :: rest => (yearAt (c :: rest)).isSome || hasYearGroup rest

/-- Spec-side definition, for comparison with the code: the spec says the
release year comes from a `(YYYY)` pattern match at the end of the string
and is absent otherwise. -/
def specTrailingYear (t : String) : Option Int :=
  match t.data.reverse with
  | ')' :: d1 :: d2 :: d3 :: d4 :: '(' :: _ =>
    if isDigitC d1 && isDigitC d2 && isDigitC d3 && isDigitC d4 then
      some (((d4.toNat - 48) * 1000 + (d3.toNat - 48) * 100 +
        (d2.toNat - 48) * 10 + (d1.toNat - 48) : Nat) : Int)
    else none
  | _ => none

/-- Authoritative-payload projection of a call outcome: the payload when
the call completed with Response "True". -/
def authPayload : AttemptOutcome → Option OmdbPayload
  | AttemptOutcome.ok d => if d.response = "True" then some d else none
  | AttemptOutcome.netFail => none

/-- Invariant tying a loop segment of the resolver to the service oracle:
the final call index advances by the trace length; on advance every
issued call of the segment was non-authoritative; on done every issued
call but the last was non-authoritative and the last was authoritative,
with the result the mapping of its payload. -/
def SegSpec (svc : Nat → AttemptOutcome) (k : Nat)
    (out : PairOutcome × List Request × Nat) : Prop :=
  out.2.2 = k + out.2.1.length ∧
  (out.1 = PairOutcome.advance →
    ∀ i, i < out.2.1.length → authPayload (svc (k + i)) = none) ∧
  (∀ rr, out.1 = PairOutcome.done rr →
    0 < out.2.1.length ∧
    (∀ i, i + 1 < out.2.1.length → authPayload (svc (k + i)) = none) ∧
    ∃ d, authPayload (svc (k + (out.2.1.length - 1))) = some d ∧
      rr = mapPayload d)

/-- An authoritative payload whose rating field is the upstream sentinel;
used to instantiate service behaviours. -/
def authOkPayload : OmdbPayload :=
  { response := "True", imdbID := some "tt0133093", plotField := some "A hacker learns the truth.",
    directorField := some "Lana Wachowski", boxOfficeField := none,
    runtimeField := some "136 min", ratingField := some "N/A" }

/-- An authoritative payload whose rating field is the empty string, which
the float conversion of the source rejects. -/
def emptyRatingPayload : OmdbPayload :=
  { response := "True", imdbID := some "tt0000001", plotField := some "P",
    directorField := some "D", boxOfficeField := none,
    runtimeField := none, ratingField := some "" }

/-- An authoritative payload whose rating field is a non-numeric string,
which the float conversion of the source rejects. -/
def wordRatingPayload : OmdbPayload :=
  { response := "True", imdbID := some "tt0000002", plotField := none,
    directorField := none, boxOfficeField := none,
    runtimeField := none, ratingField := some "great" }

/-- A well-formed non-authoritative payload: the service reports no
match. -/
def noMatchPayload : OmdbPayload :=
  { response := "False", imdbID := none, plotField := none,
    directorField := none, boxOfficeField := none,
    runtimeField := none, ratingField := none }

/-- A service that answers every call authoritatively with
`authOkPayload`. -/
def constAuthSvc : Nat → AttemptOutcome := fun _ => AttemptOutcome.ok authOkPayload

/-- A service that answers every call authoritatively with an
empty-string rating. -/
def constEmptyRatingSvc : Nat → AttemptOutcome :=
  fun _ => AttemptOutcome.ok emptyRatingPayload

/-- A service that answers every call authoritatively with a non-numeric
rating. -/
def constWordRatingSvc : Nat → AttemptOutcome :=
  fun _ => AttemptOutcome.ok wordRatingPayload

/-- A service that answers every call with a well-formed no-match
payload. -/
def constNoMatchSvc : Nat → AttemptOutcome := fun _ => AttemptOutcome.ok noMatchPayload

/-- A service on which every call fails at the transport level. -/
def constNetFailSvc : Nat → AttemptOutcome := fun _ => AttemptOutcome.netFail

/-- Whitespace-normal form: every whitespace character is a plain space
and no two adjacent characters are both whitespace.  This is the shape of
the output of the whitespace-collapsing substitution. -/
def wsNormed (l : List Char) : Prop :=
  (∀ c ∈ l, isWsC c = true → c = ' ') ∧
  List.Chain' (fun a b => ¬(isWsC a = true ∧ isWsC b = true)) l

theorem addCandidate_length_le (acc : List String) (t : Option String) :
    (addCandidate acc t).length ≤ acc.length + 1 := by
  cases t with
  | none => simp [addCandidate]
  | some s =>
    simp only [addCandidate]
    split
    · simp
    · omega

theorem foldl_addCandidate_length_le (ts : List (Option String)) (acc : List String) :
    (ts.foldl addCandidate acc).length ≤ acc.length + ts.length := by
  induction ts generalizing acc with
  | nil => simp
  | cons t ts ih =>
    have h1 := addCandidate_length_le acc t
    have h2 := ih (addCandidate acc t)
    simp only [List.foldl_cons, List.length_cons]
    omega

theorem addTranslits_length_le (snap acc : List String) :
    (addTranslits snap acc).length ≤ acc.length + snap.length := by
  induction snap generalizing acc with
  | nil => simp [addTranslits]
  | cons c rest ih =>
    simp only [addTranslits]
    have h2 := ih (if !(remove_diacritics c = c) && !(acc.contains (remove_diacritics c))
      then acc ++ [remove_diacritics c] else acc)
    have h1 : (if !(remove_diacritics c = c) && !(acc.contains (remove_diacritics c))
        then acc ++ [remove_diacritics c] else acc).length ≤ acc.length + 1 := by
      split
      · simp
      · omega
    simp only [List.length_cons]
    omega

/-- C10: for every raw title string the candidate list has at most 8
entries: the first loop appends at most the 4 transform outputs, the
diacritic loop at most one variant per entry of its snapshot, and the
final filter-and-normalize pass never lengthens the list. -/
theorem c10_candidate_count_bounded (s : String) :
    (generate_title_candidates s).length ≤ 8 := by
  unfold generate_title_candidates
  simp only []
  split
  · simp
  · have h1 := foldl_addCandidate_length_le
      [some (move_trailing_article (base_clean s)),
       some (remove_parenthetical_alternates (base_clean s)),
       extract_parenthetical_alternate (base_clean s),
       some (base_clean s)] []
    simp only [List.length_cons, List.length_nil] at h1
    set cands := [some (move_trailing_article (base_clean s)),
       some (remove_parenthetical_alternates (base_clean s)),
       extract_parenthetical_alternate (base_clean s),
       some (base_clean s)].foldl addCandidate [] with hc
    have h2 := addTranslits_length_le cands cands
    have h3 : ((addTranslits cands cands).filter (fun c => !(c = ""))).length ≤
        (addTranslits cands cands).length := List.length_filter_le _ _
    rw [List.length_map]
    omega

/-- C4: on an empty candidate list the resolver issues no call and
returns the default record, whose fields are the documented sentinels:
null identifier, plot "Not Available", director "Unknown", and null box
office, runtime and rating. -/
theorem c4_empty_candidates (svc : Nat → AttemptOutcome) (year : Option Int) :
    fetch_omdb_data svc [] year = (Except.ok defaultRecord, []) ∧
    defaultRecord.imdb_id = none ∧ defaultRecord.plot = "Not Available" ∧
    defaultRecord.director = "Unknown" ∧ defaultRecord.box_office = none ∧
    defaultRecord.runtime = none ∧ defaultRecord.imdb_rating = none :=
  ⟨rfl, rfl, rfl, rfl, rfl, rfl, rfl⟩

/-- C5: evaluation of the candidate generator at the failing inputs.  For
the one-character title U+00B4 the diacritic-stripped variant is a single
space, which is truthy and passes the final filter, and the closing
whitespace normalization then turns it into an empty string, so the
returned list contains an empty entry.  For the title "a ´b (a b)" the
diacritic variants normalize to entries that collide with earlier ones,
so the returned list contains the duplicate "a b". -/
theorem c5_candidate_list_bug_eval :
    generate_title_candidates "´" = ["´", ""] ∧
    ¬ (generate_title_candidates "a ´b (a b)").Nodup := by
  constructor
  · rfl
  · decide

theorem removeDiacriticsL_append (a b : List Char) :
    removeDiacriticsL (a ++ b) = removeDiacriticsL a ++ removeDiacriticsL b := by
  simp [removeDiacriticsL, nfkdL, List.filter_append]

theorem removeDiacriticsL_cons (c : Char) (l : List Char) :
    removeDiacriticsL (c :: l) =
      (nfkdChar c).filter (fun d => !(isCombining d)) ++ removeDiacriticsL l := by
  simp [removeDiacriticsL, nfkdL]

theorem removeDiacriticsL_char_fix (c : Char) :
    removeDiacriticsL ((nfkdChar c).filter (fun d => !(isCombining d))) =
      (nfkdChar c).filter (fun d => !(isCombining d)) := by
  by_cases h1 : c = eAcute
  · subst h1; decide
  · by_cases h2 : c = acuteAccent
    · subst h2; decide
    · by_cases h3 : c = fiLigature
      · subst h3; decide
      · simp only [nfkdChar, h1, h2, h3, if_false]
        by_cases h4 : isCombining c
        · simp [h4, removeDiacriticsL, nfkdL]
        · simp [h4, removeDiacriticsL, nfkdL, nfkdChar, h1, h2, h3]

theorem removeDiacriticsL_idem (l : List Char) :
    removeDiacriticsL (removeDiacriticsL l) = removeDiacriticsL l := by
  induction l with
  | nil => rfl
  | cons c cs ih =>
    rw [removeDiacriticsL_cons, removeDiacriticsL_append, ih, removeDiacriticsL_char_fix]

/-- C9 (amended): `remove_diacritics` maps "Amélie" to "Amelie", is
idempotent on every string, returns a string unchanged when its NFKD
decomposition is the string itself and it contains no combining
character, and returns every non-string input unchanged.  (The code does
rewrite NFKD-unstable inputs without combining marks, such as the fi
ligature, so the no-op condition is NFKD-normality, not merely the
absence of combining marks after decomposition.) -/
theorem c9_remove_diacritics_amended :
    remove_diacritics "Amélie" = "Amelie" ∧
    (∀ s : String, remove_diacritics (remove_diacritics s) = remove_diacritics s) ∧
    (∀ s : String, nfkdL s.data = s.data → (∀ c ∈ s.data, isCombining c = false) →
      remove_diacritics s = s) ∧
    ∀ tag : Nat, remove_diacritics_py (PyVal.nonStr tag) = PyVal.nonStr tag := by
  refine ⟨by decide, ?_, ?_, fun tag => rfl⟩
  · intro s
    show String.mk (removeDiacriticsL (String.mk (removeDiacriticsL s.data)).data) =
      String.mk (removeDiacriticsL s.data)
    rw [removeDiacriticsL_idem]
  · intro s hfix hmark
    show String.mk (removeDiacriticsL s.data) = s
    rw [removeDiacriticsL, hfix, List.filter_eq_self.mpr]
    intro a ha
    simp [hmark a ha]

/-- Witness for C9 at a concrete ASCII input. -/
theorem c9_remove_diacritics_witness :
    remove_diacritics "Test" = "Test" :=
  c9_remove_diacritics_amended.2.2.1 "Test" (by decide) (by decide)

/-- C9 counterexample to the claim as stated: the fi ligature U+FB01
contains no combining mark after decomposition, yet the code rewrites it
to "fi" rather than returning it unchanged. -/
theorem c9_compat_char_counterexample :
    remove_diacritics "ﬁ" = "fi" ∧
    (nfkdL ("ﬁ".data)).all (fun c => !(isCombining c)) = true ∧
    remove_diacritics "ﬁ" ≠ "ﬁ" := by
  refine ⟨by decide, by decide, by decide⟩

theorem yearAt_first_six (c0 c1 c2 c3 c4 c5 : Char) (r r2 : List Char) :
    yearAt (c0 :: c1 :: c2 :: c3 :: c4 :: c5 :: r) =
      yearAt (c0 :: c1 :: c2 :: c3 :: c4 :: c5 :: r2) := by
  simp [yearAt]

theorem searchYearL_eq_none (l : List Char) (h : hasYearGroup l = false) :
    searchYearL l = none := by
  induction l with
  | nil => rfl
  | cons c rest ih =>
    simp only [hasYearGroup, Bool.or_eq_false_iff] at h
    obtain ⟨h1, h2⟩ := h
    have hnone : yearAt (c :: rest) = none := by
      cases hv : yearAt (c :: rest) with
      | none => rfl
      | some v => rw [hv] at h1; simp at h1
    rw [searchYearL, hnone]
    exact ih h2

theorem searchYearL_append (a b : List Char) (e1 e2 e3 e4 : Char)
    (h1 : isDigitC e1 = true) (h2 : isDigitC e2 = true) (h3 : isDigitC e3 = true)
    (h4 : isDigitC e4 = true) (ha : hasYearGroup a = false) :
    searchYearL (a ++ '(' :: e1 :: e2 :: e3 :: e4 :: ')' :: b) =
      some (((e1.toNat - 48) * 1000 + (e2.toNat - 48) * 100 +
        (e3.toNat - 48) * 10 + (e4.toNat - 48) : Nat) : Int) := by
  induction a with
  | nil =>
    simp [searchYearL, yearAt, h1, h2, h3, h4]
  | cons c a2 ih =>
    simp only [hasYearGroup, Bool.or_eq_false_iff] at ha
    obtain ⟨hy, ha2⟩ := ha
    have hyn : yearAt (c :: a2) = none := by
      cases hv : yearAt (c :: a2) with
      | none => rfl
      | some v => rw [hv] at hy; simp at hy
    have hnone : yearAt (c :: (a2 ++ '(' :: e1 :: e2 :: e3 :: e4 :: ')' :: b)) = none := by
      match a2 with
      | [] =>
        have : isDigitC '(' = false := by decide
        simp [yearAt, this]
      | [x1] =>
        have : isDigitC '(' = false := by decide
        simp [yearAt, this]
      | [x1, x2] =>
        have : isDigitC '(' = false := by decide
        simp [yearAt, this]
      | [x1, x2, x3] =>
        have : isDigitC '(' = false := by decide
        simp [yearAt, this]
      | [x1, x2, x3, x4] =>
        have : ('(' = ')') = False := by simp
        simp [yearAt]
      | x1 :: x2 :: x3 :: x4 :: x5 :: rest =>
        rw [List.cons_append, List.cons_append, List.cons_append, List.cons_append,
          List.cons_append]
        rw [yearAt_first_six c x1 x2 x3 x4 x5 _ rest]
        exact hyn
    rw [List.cons_append, searchYearL, hnone]
    exact ih ha2

/-- C7 (amended): the release year the code passes to the resolver is the
integer of the first parenthesized four-digit group occurring anywhere in
the raw title (the search is unanchored), and it is absent exactly when
no such group occurs; a group not at the end of the string still yields a
year. -/
theorem c7_release_year_amended :
    (∀ (a b : List Char) (e1 e2 e3 e4 : Char),
      isDigitC e1 = true → isDigitC e2 = true → isDigitC e3 = true → isDigitC e4 = true →
      hasYearGroup a = false →
      extract_release_year (String.mk (a ++ '(' :: e1 :: e2 :: e3 :: e4 :: ')' :: b)) =
        some (((e1.toNat - 48) * 1000 + (e2.toNat - 48) * 100 +
          (e3.toNat - 48) * 10 + (e4.toNat - 48) : Nat) : Int)) ∧
    (∀ s : String, hasYearGroup s.data = false → extract_release_year s = none) :=
  ⟨fun a b e1 e2 e3 e4 h1 h2 h3 h4 ha => searchYearL_append a b e1 e2 e3 e4 h1 h2 h3 h4 ha,
   fun s h => searchYearL_eq_none s.data h⟩

/-- Witness for C7 at concrete inputs. -/
theorem c7_release_year_witness :
    extract_release_year (String.mk ("Foo ".data ++ '(' :: '1' :: '9' :: '4' :: '4' :: ')' :: " bar".data)) =
      some (((('1'.toNat - 48) * 1000 + ('9'.toNat - 48) * 100 +
        ('4'.toNat - 48) * 10 + ('4'.toNat - 48) : Nat) : Int)) ∧
    extract_release_year "Foo bar" = none :=
  ⟨c7_release_year_amended.1 "Foo ".data " bar".data '1' '9' '4' '4'
      (by decide) (by decide) (by decide) (by decide) (by decide),
   c7_release_year_amended.2 "Foo bar" (by decide)⟩

/-- C7 counterexample to the claim as stated: a `(YYYY)` group that is
not at the end of the string still yields a release year, where the
spec's trailing-anchored reading yields none. -/
theorem c7_unanchored_counterexample :
    extract_release_year "Foo (1944) bar" = some 1944 ∧
    specTrailingYear "Foo (1944) bar" = none := ⟨rfl, rfl⟩

theorem retryLoop_segSpec (svc : Nat → AttemptOutcome) (req : Request) :
    ∀ n k, SegSpec svc k (retryLoop svc req n k) := by
  intro n
  induction n with
  | zero =>
    intro k
    refine ⟨by simp [retryLoop], ?_, ?_⟩
    · intro _ i hi; simp [retryLoop] at hi
    · intro rr h; simp [retryLoop] at h
  | succ n ih =>
    intro k
    cases hk : svc k with
    | netFail =>
      rcases hR : retryLoop svc req n (k + 1) with ⟨res, tr, k2⟩
      have ihh := ih (k + 1)
      rw [hR] at ihh
      obtain ⟨ihc, ihadv, ihdone⟩ := ihh
      have hstep : retryLoop svc req (n + 1) k = (res, req :: tr, k2) := by
        simp only [retryLoop, hk, hR]
      rw [hstep]
      refine ⟨?_, ?_, ?_⟩
      · show k2 = k + (req :: tr).length
        have ihc2 : k2 = k + 1 + tr.length := ihc
        simp only [List.length_cons]
        omega
      · intro h i hi
        cases i with
        | zero => simp [authPayload, hk]
        | succ j =>
          have hj : j < tr.length := by
            simp only [List.length_cons] at hi; omega
          have := ihadv h j hj
          rw [show k + (j + 1) = k + 1 + j from by omega]
          exact this
      · intro rr h
        obtain ⟨hpos, hmid, d, hd, hrr⟩ := ihdone rr h
        have hpos2 : 0 < tr.length := hpos
        refine ⟨by simp, ?_, d, ?_, hrr⟩
        · intro i hi
          cases i with
          | zero => simp [authPayload, hk]
          | succ j =>
            have hj : j + 1 < tr.length := by
              simp only [List.length_cons] at hi; omega
            have := hmid j hj
            rw [show k + (j + 1) = k + 1 + j from by omega]
            exact this
        · rw [show k + ((req :: tr).length - 1) = k + 1 + (tr.length - 1) from by
            simp only [List.length_cons]; omega]
          exact hd
    | ok d =>
      by_cases hr : d.response = "True"
      · have hstep : retryLoop svc req (n + 1) k =
            (PairOutcome.done (mapPayload d), [req], k + 1) := by
          simp only [retryLoop, hk]
          simp [hr]
        rw [hstep]
        refine ⟨by simp, ?_, ?_⟩
        · intro h; simp at h
        · intro rr h
          simp only [PairOutcome.done.injEq] at h
          refine ⟨by simp, ?_, d, ?_, h.symm⟩
          · intro i hi; simp at hi
          · simp [authPayload, hk, hr]
      · have hstep : retryLoop svc req (n + 1) k = (PairOutcome.advance, [req], k + 1) := by
          simp only [retryLoop, hk]
          simp [hr]
        rw [hstep]
        refine ⟨by simp, ?_, ?_⟩
        · intro _ i hi
          cases i with
          | zero => simp [authPayload, hk, hr]
          | succ j => simp at hi
        · intro rr h; simp at h

theorem segSpec_seq (svc : Nat → AttemptOutcome) (k : Nat) (tr1 : List Request)
    (out2 : PairOutcome × List Request × Nat)
    (h1 : ∀ i, i < tr1.length → authPayload (svc (k + i)) = none)
    (h2 : SegSpec svc (k + tr1.length) out2) :
    SegSpec svc k (out2.1, tr1 ++ out2.2.1, out2.2.2) := by
  obtain ⟨hc, hadv, hdone⟩ := h2
  refine ⟨?_, ?_, ?_⟩
  · simp only [List.length_append]; omega
  · intro h i hi
    simp only [List.length_append] at hi
    by_cases hlt : i < tr1.length
    · exact h1 i hlt
    · have hj : i - tr1.length < out2.2.1.length := by omega
      have := hadv h (i - tr1.length) hj
      rw [show k + i = k + tr1.length + (i - tr1.length) from by omega]
      exact this
  · intro rr h
    obtain ⟨hpos, hmid, d, hd, hrr⟩ := hdone rr h
    refine ⟨by simp only [List.length_append]; omega, ?_, d, ?_, hrr⟩
    · intro i hi
      simp only [List.length_append] at hi
      by_cases hlt : i < tr1.length
      · exact h1 i hlt
      · have hj : (i - tr1.length) + 1 < out2.2.1.length := by omega
        have := hmid (i - tr1.length) hj
        rw [show k + i = k + tr1.length + (i - tr1.length) from by omega]
        exact this
    · rw [show k + ((tr1 ++ out2.2.1).length - 1) =
        k + tr1.length + (out2.2.1.length - 1) from by
          simp only [List.length_append]; omega]
      exact hd

theorem variantsLoop_segSpec (svc : Nat → AttemptOutcome) (cand : String) :
    ∀ (vs : List (Option Int)) (k : Nat), SegSpec svc k (variantsLoop svc cand vs k) := by
  intro vs
  induction vs with
  | nil =>
    intro k
    refine ⟨by simp [variantsLoop], ?_, ?_⟩
    · intro _ i hi; simp [variantsLoop] at hi
    · intro rr h; simp [variantsLoop] at h
  | cons v vs ih =>
    intro k
    rcases hR : retryLoop svc { title := cand, yearHint := v } API_RETRIES k with ⟨res1, tr1, k2⟩
    have hspec := retryLoop_segSpec svc { title := cand, yearHint := v } API_RETRIES k
    rw [hR] at hspec
    cases res1 with
    | done r =>
      have hstep : variantsLoop svc cand (v :: vs) k = (PairOutcome.done r, tr1, k2) := by
        simp only [variantsLoop, hR]
      rw [hstep]
      exact hspec
    | advance =>
      rcases hO : variantsLoop svc cand vs k2 with ⟨res2, tr2, k3⟩
      have ih2 := ih k2
      rw [hO] at ih2
      have hstep : variantsLoop svc cand (v :: vs) k = (res2, tr1 ++ tr2, k3) := by
        simp only [variantsLoop, hR, hO]
      rw [hstep]
      have hk2 : k2 = k + tr1.length := hspec.1
      have h1 : ∀ i, i < tr1.length → authPayload (svc (k + i)) = none := hspec.2.1 rfl
      subst hk2
      exact segSpec_seq svc k tr1 (res2, tr2, k3) h1 ih2

theorem candLoop_segSpec (svc : Nat → AttemptOutcome) (year : Option Int) :
    ∀ (cs : List String) (k : Nat), SegSpec svc k (candLoop svc year cs k) := by
  intro cs
  induction cs with
  | nil =>
    intro k
    refine ⟨by simp [candLoop], ?_, ?_⟩
    · intro _ i hi; simp [candLoop] at hi
    · intro rr h; simp [candLoop] at h
  | cons c cs ih =>
    intro k
    rcases hR : variantsLoop svc c (variantList year) k with ⟨res1, tr1, k2⟩
    have hspec := variantsLoop_segSpec svc c (variantList year) k
    rw [hR] at hspec
    cases res1 with
    | done r =>
      have hstep : candLoop svc year (c :: cs) k = (PairOutcome.done r, tr1, k2) := by
        simp only [candLoop, hR]
      rw [hstep]
      exact hspec
    | advance =>
      rcases hO : candLoop svc year cs k2 with ⟨res2, tr2, k3⟩
      have ih2 := ih k2
      rw [hO] at ih2
      have hstep : candLoop svc year (c :: cs) k = (res2, tr1 ++ tr2, k3) := by
        simp only [candLoop, hR, hO]
      rw [hstep]
      have hk2 : k2 = k + tr1.length := hspec.1
      have h1 : ∀ i, i < tr1.length → authPayload (svc (k + i)) = none := hspec.2.1 rfl
      subst hk2
      exact segSpec_seq svc k tr1 (res2, tr2, k3) h1 ih2

/-- C1 (amended): for every candidate list, optional year and service
behaviour in which every authoritative payload carries a rating field
that is absent, the upstream sentinel "N/A", or a parseable float
literal, the resolver returns an enrichment record — the default one, or
one mapped from an authoritative payload — and raises no exception.
(Without the rating condition the float conversion of the source can
raise a ValueError that escapes to the caller.) -/
theorem c1_no_escape_amended (svc : Nat → AttemptOutcome) (cands : List String)
    (year : Option Int)
    (hok : ∀ i d, authPayload (svc i) = some d →
      ∃ v, ratingExc d.ratingField = Except.ok v) :
    ∃ rec, (fetch_omdb_data svc cands year).1 = Except.ok rec ∧
      (rec = defaultRecord ∨
        ∃ i d, authPayload (svc i) = some d ∧ mapPayload d = Except.ok rec) := by
  have hspec := candLoop_segSpec svc year cands 0
  rcases hC : candLoop svc year cands 0 with ⟨res, tr, k⟩
  rw [hC] at hspec
  obtain ⟨hc, hadv, hdone⟩ := hspec
  cases res with
  | advance =>
    exact ⟨defaultRecord, by simp [fetch_omdb_data, hC], Or.inl rfl⟩
  | done r =>
    obtain ⟨hpos, hmid, d, hd, hrr⟩ := hdone r rfl
    obtain ⟨v, hv⟩ := hok _ d hd
    have hmap : mapPayload d = Except.ok
        { imdb_id := d.imdbID,
          plot := orSentinel d.plotField "Not Available",
          director := orSentinel d.directorField "Unknown",
          box_office := d.boxOfficeField,
          runtime := d.runtimeField,
          imdb_rating := v } := by
      unfold mapPayload
      rw [hv]
    refine ⟨_, ?_, Or.inr ⟨_, d, hd, hmap⟩⟩
    simp only [fetch_omdb_data, hC]
    rw [hrr, hmap]

/-- Witness for C1: a service answering authoritatively with the rating
sentinel "N/A" on the first call. -/
theorem c1_no_escape_witness :
    ∃ rec, (fetch_omdb_data constAuthSvc ["The Matrix"] none).1 = Except.ok rec ∧
      (rec = defaultRecord ∨
        ∃ i d, authPayload (constAuthSvc i) = some d ∧
          mapPayload d = Except.ok rec) :=
  c1_no_escape_amended constAuthSvc ["The Matrix"] none
    (by
      intro i d hd
      simp only [constAuthSvc, authPayload, authOkPayload, if_true,
        Option.some.injEq] at hd
      subst hd
      exact ⟨none, rfl⟩)

/-- C1 counterexample to the claim as stated: an authoritative payload
whose rating field is the empty string makes the resolver raise a
ValueError to its caller instead of returning a record. -/
theorem c1_exception_escapes_counterexample :
    (fetch_omdb_data constEmptyRatingSvc ["A"] none).1 =
      Except.error PyErr.valueError := rfl

/-- C2 (amended): as soon as an issued lookup receives an authoritative
response, the resolver stops — the trace ends at exactly that call and
the overall result is the mapping of that payload (the mapped record, or
the ValueError the mapping raises on an unparseable rating); no request
for a later year-variant or candidate is issued. -/
theorem c2_authoritative_short_circuit_amended (svc : Nat → AttemptOutcome)
    (cands : List String) (year : Option Int) (i : Nat)
    (hi : i < (fetch_omdb_data svc cands year).2.length)
    (ha : (authPayload (svc i)).isSome = true) :
    (fetch_omdb_data svc cands year).2.length = i + 1 ∧
    ∃ d, authPayload (svc i) = some d ∧
      (fetch_omdb_data svc cands year).1 = mapPayload d := by
  have hspec := candLoop_segSpec svc year cands 0
  rcases hC : candLoop svc year cands 0 with ⟨res, tr, k⟩
  rw [hC] at hspec
  obtain ⟨hc, hadv, hdone⟩ := hspec
  cases res with
  | advance =>
    have hi2 : i < tr.length := by simpa [fetch_omdb_data, hC] using hi
    have := hadv rfl i hi2
    rw [Nat.zero_add] at this
    rw [this] at ha
    simp at ha
  | done r =>
    obtain ⟨hpos, hmid, d, hd, hrr⟩ := hdone r rfl
    have hpos2 : 0 < tr.length := hpos
    have hi2 : i < tr.length := by simpa [fetch_omdb_data, hC] using hi
    have hlast : i = tr.length - 1 := by
      by_contra hne
      have hlt : i + 1 < tr.length := by omega
      have := hmid i hlt
      rw [Nat.zero_add] at this
      rw [this] at ha
      simp at ha
    have hd2 : authPayload (svc i) = some d := by
      rw [hlast]
      rw [show tr.length - 1 = 0 + (tr.length - 1) from by omega]
      exact hd
    refine ⟨by simp [fetch_omdb_data, hC]; omega, d, hd2, ?_⟩
    simp only [fetch_omdb_data, hC]
    exact hrr

/-- Witness for C2: the first call is authoritative, the trace stops at
length one, the second candidate is never queried. -/
theorem c2_short_circuit_witness :
    (fetch_omdb_data constAuthSvc ["A", "B"] none).2.length = 0 + 1 ∧
    ∃ d, authPayload (constAuthSvc 0) = some d ∧
      (fetch_omdb_data constAuthSvc ["A", "B"] none).1 = mapPayload d :=
  c2_authoritative_short_circuit_amended constAuthSvc
    ["A", "B"] none 0 (by decide) (by decide)

/-- C2 counterexample to the claim as stated: the first call is
authoritative but carries an unparseable rating, so the resolver does not
return an EnrichmentRecord at all — it raises — although it does stop
after that call. -/
theorem c2_mapping_error_counterexample :
    (fetch_omdb_data constWordRatingSvc ["A", "B"] none).1 =
      Except.error PyErr.valueError ∧
    (fetch_omdb_data constWordRatingSvc ["A", "B"] none).2 =
      [{ title := "A", yearHint := none }] := ⟨rfl, rfl⟩

theorem retryLoop_length_le (svc : Nat → AttemptOutcome) (req : Request) :
    ∀ n k, (retryLoop svc req n k).2.1.length ≤ n := by
  intro n
  induction n with
  | zero => intro k; simp [retryLoop]
  | succ n ih =>
    intro k
    cases hk : svc k with
    | netFail =>
      rcases hR : retryLoop svc req n (k + 1) with ⟨res, tr, k2⟩
      have hlen := ih (k + 1)
      rw [hR] at hlen
      have hlen2 : tr.length ≤ n := hlen
      have hstep : retryLoop svc req (n + 1) k = (res, req :: tr, k2) := by
        simp only [retryLoop, hk, hR]
      rw [hstep]
      show (req :: tr).length ≤ n + 1
      simp only [List.length_cons]
      omega
    | ok d =>
      by_cases hr : d.response = "True" <;>
        · simp only [retryLoop, hk]
          simp [hr]

theorem variantsLoop_length_le (svc : Nat → AttemptOutcome) (cand : String) :
    ∀ (vs : List (Option Int)) (k : Nat),
      (variantsLoop svc cand vs k).2.1.length ≤ 2 * vs.length := by
  intro vs
  induction vs with
  | nil => intro k; simp [variantsLoop]
  | cons v vs ih =>
    intro k
    rcases hR : retryLoop svc { title := cand, yearHint := v } API_RETRIES k with ⟨res1, tr1, k2⟩
    have h1 := retryLoop_length_le svc { title := cand, yearHint := v } API_RETRIES k
    rw [hR] at h1
    have h1b : tr1.length ≤ 2 := h1
    cases res1 with
    | done r =>
      have hstep : variantsLoop svc cand (v :: vs) k = (PairOutcome.done r, tr1, k2) := by
        simp only [variantsLoop, hR]
      rw [hstep]
      show tr1.length ≤ 2 * (vs.length + 1)
      omega
    | advance =>
      rcases hO : variantsLoop svc cand vs k2 with ⟨res2, tr2, k3⟩
      have h2 := ih k2
      rw [hO] at h2
      have h2b : tr2.length ≤ 2 * vs.length := h2
      have hstep : variantsLoop svc cand (v :: vs) k = (res2, tr1 ++ tr2, k3) := by
        simp only [variantsLoop, hR, hO]
      rw [hstep]
      show (tr1 ++ tr2).length ≤ 2 * (vs.length + 1)
      simp only [List.length_append]
      omega

theorem candLoop_length_le (svc : Nat → AttemptOutcome) (year : Option Int) :
    ∀ (cs : List String) (k : Nat),
      (candLoop svc year cs k).2.1.length ≤ 2 * (variantList year).length * cs.length := by
  intro cs
  induction cs with
  | nil => intro k; simp [candLoop]
  | cons c cs ih =>
    intro k
    rcases hR : variantsLoop svc c (variantList year) k with ⟨res1, tr1, k2⟩
    have h1 := variantsLoop_length_le svc c (variantList year) k
    rw [hR] at h1
    have h1b : tr1.length ≤ 2 * (variantList year).length := h1
    cases res1 with
    | done r =>
      have hstep : candLoop svc year (c :: cs) k = (PairOutcome.done r, tr1, k2) := by
        simp only [candLoop, hR]
      rw [hstep]
      show tr1.length ≤ 2 * (variantList year).length * (cs.length + 1)
      have : 2 * (variantList year).length * cs.length + 2 * (variantList year).length =
          2 * (variantList year).length * (cs.length + 1) := by ring
      omega
    | advance =>
      rcases hO : candLoop svc year cs k2 with ⟨res2, tr2, k3⟩
      have h2 := ih k2
      rw [hO] at h2
      have h2b : tr2.length ≤ 2 * (variantList year).length * cs.length := h2
      have hstep : candLoop svc year (c :: cs) k = (res2, tr1 ++ tr2, k3) := by
        simp only [candLoop, hR, hO]
      rw [hstep]
      show (tr1 ++ tr2).length ≤ 2 * (variantList year).length * (cs.length + 1)
      simp only [List.length_append]
      have : 2 * (variantList year).length * cs.length + 2 * (variantList year).length =
          2 * (variantList year).length * (cs.length + 1) := by ring
      omega

/-- C3: the inner loop issues at most 2 attempts per (candidate,
year-variant) pair, and with a year present the whole resolver issues at
most N * 2 * 2 calls for N candidates — whatever the service does, so in
particular when every attempt fails transiently. -/
theorem c3_retry_budget (svc : Nat → AttemptOutcome) (req : Request) (k : Nat)
    (cands : List String) (y : Int) :
    (retryLoop svc req API_RETRIES k).2.1.length ≤ 2 ∧
    (fetch_omdb_data svc cands (some y)).2.length ≤ 2 * 2 * cands.length := by
  constructor
  · exact retryLoop_length_le svc req API_RETRIES k
  · have h1 := candLoop_length_le svc (some y) cands 0
    have h2 : (variantList (some y)).length ≤ 2 := by
      by_cases h : y = 0 <;> simp [variantList, h]
    have htr : (fetch_omdb_data svc cands (some y)).2 =
        (candLoop svc (some y) cands 0).2.1 := by
      rcases hC : candLoop svc (some y) cands 0 with ⟨res, tr, k2⟩
      cases res <;> simp [fetch_omdb_data, hC]
    rw [htr]
    calc (candLoop svc (some y) cands 0).2.1.length
        ≤ 2 * (variantList (some y)).length * cands.length := h1
      _ ≤ 2 * 2 * cands.length :=
          Nat.mul_le_mul (by omega) (Nat.le_refl cands.length)

theorem retryLoop_nonauth_succ (svc : Nat → AttemptOutcome) (req : Request)
    (n k : Nat) (d : OmdbPayload) (hd : svc k = AttemptOutcome.ok d)
    (hr : ¬ d.response = "True") :
    retryLoop svc req (n + 1) k = (PairOutcome.advance, [req], k + 1) := by
  simp only [retryLoop, hd]
  simp [hr]

theorem variantsLoop_nonauth (svc : Nat → AttemptOutcome) (cand : String)
    (hsvc : ∀ i, ∃ d, svc i = AttemptOutcome.ok d ∧ ¬ d.response = "True") :
    ∀ (vs : List (Option Int)) (k : Nat),
      variantsLoop svc cand vs k =
        (PairOutcome.advance, vs.map (fun v => { title := cand, yearHint := v }),
          k + vs.length) := by
  intro vs
  induction vs with
  | nil => intro k; simp [variantsLoop]
  | cons v vs ih =>
    intro k
    obtain ⟨d, hd, hr⟩ := hsvc k
    have hretry : retryLoop svc { title := cand, yearHint := v } API_RETRIES k =
        (PairOutcome.advance, [{ title := cand, yearHint := v }], k + 1) := by
      have h2 : API_RETRIES = 1 + 1 := rfl
      rw [h2]
      exact retryLoop_nonauth_succ svc _ 1 k d hd hr
    simp only [variantsLoop, hretry, ih (k + 1)]
    simp only [List.map_cons, List.length_cons, List.singleton_append, Prod.mk.injEq]
    exact ⟨trivial, trivial, by omega⟩

theorem candLoop_nonauth (svc : Nat → AttemptOutcome) (y : Int) (hy : ¬ y = 0)
    (hsvc : ∀ i, ∃ d, svc i = AttemptOutcome.ok d ∧ ¬ d.response = "True") :
    ∀ (cs : List String) (k : Nat),
      candLoop svc (some y) cs k =
        (PairOutcome.advance,
          cs.flatMap (fun c => [{ title := c, yearHint := some y },
                                { title := c, yearHint := none }]),
          k + 2 * cs.length) := by
  have hvl : variantList (some y) = [some y, none] := by simp [variantList, hy]
  intro cs
  induction cs with
  | nil => intro k; simp [candLoop]
  | cons c cs ih =>
    intro k
    have hvar := variantsLoop_nonauth svc c hsvc (variantList (some y)) k
    rw [hvl] at hvar
    simp only [List.map_cons, List.map_nil, List.length_cons, List.length_nil] at hvar
    simp only [candLoop, hvl, hvar, ih (k + 0 + 1 + 1)]
    simp only [List.flatMap_cons, List.length_cons, Prod.mk.injEq]
    exact ⟨trivial, by simp, by omega⟩

/-- C8 (amended): with a nonzero release year present, the resolver
issues, for each candidate in order, first the year-constrained request
and then the unconstrained one; a well-formed no-match response consumes
no retry budget — exactly one call per (candidate, year-variant) pair is
issued — and the search ends with the default record.  (The code tests
the year for Python truthiness, so a present year equal to 0 skips the
year-constrained variant; hence the nonzero hypothesis.) -/
theorem c8_variant_order_amended (svc : Nat → AttemptOutcome) (y : Int)
    (cands : List String) (hy : ¬ y = 0)
    (hsvc : ∀ i, ∃ d, svc i = AttemptOutcome.ok d ∧ ¬ d.response = "True") :
    fetch_omdb_data svc cands (some y) =
      (Except.ok defaultRecord,
        cands.flatMap (fun c => [{ title := c, yearHint := some y },
                                 { title := c, yearHint := none }])) := by
  have h := candLoop_nonauth svc y hy hsvc cands 0
  simp [fetch_omdb_data, h]

/-- Witness for C8: one candidate, year 5, a no-match service; the trace
is the year-constrained call then the unconstrained one. -/
theorem c8_variant_order_witness :
    fetch_omdb_data constNoMatchSvc ["A"] (some 5) =
      (Except.ok defaultRecord,
        [{ title := "A", yearHint := some 5 }, { title := "A", yearHint := none }]) := by
  have h := c8_variant_order_amended constNoMatchSvc 5 ["A"]
    (by decide) (fun i => ⟨noMatchPayload, rfl, by decide⟩)
  simpa using h

/-- C8 counterexample to the claim as stated: with the release year 0
present, the year-constrained variant is never evaluated — Python
truthiness treats the year 0 as absent. -/
theorem c8_zero_year_counterexample :
    (fetch_omdb_data constNoMatchSvc ["A"] (some 0)).2 =
      [{ title := "A", yearHint := none }] ∧
    ({ title := "A", yearHint := some 0 } : Request) ∉
      (fetch_omdb_data constNoMatchSvc ["A"] (some 0)).2 :=
  ⟨rfl, by decide⟩

theorem dropWhile_self (p : Char → Bool) (l : List Char) :
    (l.dropWhile p).dropWhile p = l.dropWhile p := by
  induction l with
  | nil => rfl
  | cons c cs ih =>
    by_cases h : p c
    · simp [List.dropWhile_cons, h, ih]
    · simp [List.dropWhile_cons, h]

theorem dropWhile_len_le (p : Char → Bool) (l : List Char) :
    (l.dropWhile p).length ≤ l.length := by
  induction l with
  | nil => simp
  | cons c cs ih =>
    by_cases h : p c
    · rw [List.dropWhile_cons, if_pos h]
      simp only [List.length_cons]
      omega
    · rw [List.dropWhile_cons, if_neg h]

theorem dropWhile_eq_self_of_prefix (p : Char → Bool) (X R : List Char)
    (hX : X.dropWhile p = X) (hpre : R <+: X) : R.dropWhile p = R := by
  cases R with
  | nil => rfl
  | cons c r =>
    cases X with
    | nil =>
      obtain ⟨t, ht⟩ := hpre
      simp at ht
    | cons x xs =>
      obtain ⟨t, ht⟩ := hpre
      rw [List.cons_append] at ht
      injection ht with hcx hrest
      by_cases hx : p x
      · rw [List.dropWhile_cons, if_pos hx] at hX
        have hlen := congrArg List.length hX
        simp only [List.length_cons] at hlen
        have := dropWhile_len_le p xs
        omega
      · subst hcx
        rw [List.dropWhile_cons, if_neg hx]

theorem dropWhile_isSuffix (p : Char → Bool) (l : List Char) : l.dropWhile p <:+ l :=
  ⟨l.takeWhile p, List.takeWhile_append_dropWhile p l⟩

theorem pyStripL_idem (sel : Char → Bool) (l : List Char) :
    pyStripL sel (pyStripL sel l) = pyStripL sel l := by
  have hApre : (l.dropWhile sel).dropWhile sel = l.dropWhile sel := dropWhile_self sel l
  have hYfix : (((l.dropWhile sel).reverse).dropWhile sel).dropWhile sel =
      ((l.dropWhile sel).reverse).dropWhile sel := dropWhile_self sel _
  have hpre : (((l.dropWhile sel).reverse).dropWhile sel).reverse <+: l.dropWhile sel := by
    have hsuf : ((l.dropWhile sel).reverse).dropWhile sel <:+ (l.dropWhile sel).reverse :=
      dropWhile_isSuffix sel _
    have := List.reverse_prefix.mpr hsuf
    rwa [List.reverse_reverse] at this
  have hRfix : ((((l.dropWhile sel).reverse).dropWhile sel).reverse).dropWhile sel =
      (((l.dropWhile sel).reverse).dropWhile sel).reverse :=
    dropWhile_eq_self_of_prefix sel (l.dropWhile sel) _ hApre hpre
  show ((((pyStripL sel l).dropWhile sel).reverse).dropWhile sel).reverse = pyStripL sel l
  unfold pyStripL
  rw [hRfix, List.reverse_reverse, hYfix]

theorem wsNormed_tail {c : Char} {l : List Char} (h : wsNormed (c :: l)) : wsNormed l := by
  obtain ⟨h1, h2⟩ := h
  exact ⟨fun d hd hw => h1 d (List.mem_cons_of_mem c hd) hw, (List.chain'_cons'.mp h2).2⟩

theorem collapseL_head_keep {c : Char} (hc : isWsC c = false) (rest : List Char) :
    ∃ t, collapseL (c :: rest) = c :: t := by
  cases rest with
  | nil => exact ⟨[], by simp [collapseL, hc]⟩
  | cons c2 r2 => exact ⟨collapseL (c2 :: r2), by simp [collapseL, hc]⟩

theorem wsNormed_collapse (l : List Char) : wsNormed (collapseL l) := by
  induction l with
  | nil => exact ⟨by simp [collapseL], by simp [collapseL]⟩
  | cons c cs ih =>
    cases cs with
    | nil =>
      by_cases h : isWsC c
      · refine ⟨?_, by simp [collapseL, h]⟩
        intro d hd hw
        simp [collapseL, h] at hd
        simp [hd]
      · refine ⟨?_, by simp [collapseL, h]⟩
        intro d hd hw
        simp [collapseL, h] at hd
        subst hd
        rw [hw] at h
        exact absurd rfl h
    | cons c2 r2 =>
      by_cases h : (isWsC c && isWsC c2) = true
      · have hcol : collapseL (c :: c2 :: r2) = collapseL (c2 :: r2) := by
          simp [collapseL, h]
        rw [hcol]
        exact ih
      · have hcol : collapseL (c :: c2 :: r2) =
            (if isWsC c then ' ' else c) :: collapseL (c2 :: r2) := by
          simp only [collapseL]
          rw [if_neg h]
        rw [hcol]
        obtain ⟨ih1, ih2⟩ := ih
        constructor
        · intro d hd hw
          rcases List.mem_cons.mp hd with h1 | h1
          · by_cases hc : isWsC c
            · rw [h1, if_pos hc]
            · rw [h1, if_neg hc] at hw ⊢
              rw [hw] at hc
              exact absurd rfl hc
          · exact ih1 d h1 hw
        · rw [List.chain'_cons']
          refine ⟨?_, ih2⟩
          intro y hy
          by_cases hc : isWsC c
          · have hc2 : isWsC c2 = false := by
              cases hw2 : isWsC c2
              · rfl
              · rw [hc, hw2] at h; exact absurd rfl h
            obtain ⟨t, ht⟩ := collapseL_head_keep hc2 r2
            rw [ht] at hy
            simp at hy
            subst hy
            intro hcon
            rw [hcon.2] at hc2
            exact absurd hc2 (by simp)
          · intro hcon
            rw [if_neg hc] at hcon
            rw [hcon.1] at hc
            exact absurd rfl hc

theorem collapse_of_wsNormed (l : List Char) (h : wsNormed l) : collapseL l = l := by
  induction l with
  | nil => rfl
  | cons c cs ih =>
    cases cs with
    | nil =>
      by_cases hc : isWsC c
      · have hsp : c = ' ' := h.1 c (by simp) hc
        simp [collapseL, hc, hsp]
      · simp [collapseL, hc]
    | cons c2 r2 =>
      have hR : ¬(isWsC c = true ∧ isWsC c2 = true) :=
        (List.chain'_cons'.mp h.2).1 c2 (by simp)
      have hcond : (isWsC c && isWsC c2) = false := by
        cases h1 : isWsC c <;> cases h2 : isWsC c2 <;> simp_all
      have htail := ih (wsNormed_tail h)
      by_cases hc : isWsC c
      · have hsp : c = ' ' := h.1 c (by simp) hc
        simp only [collapseL]
        rw [if_neg (by simp [hcond]), if_pos hc, htail, hsp]
      · simp only [collapseL]
        rw [if_neg (by simp [hcond]), if_neg hc, htail]

theorem wsNormed_dropWhile (p : Char → Bool) (l : List Char) (h : wsNormed l) :
    wsNormed (l.dropWhile p) := by
  induction l with
  | nil => exact h
  | cons c cs ih =>
    by_cases hp : p c
    · rw [List.dropWhile_cons, if_pos hp]
      exact ih (wsNormed_tail h)
    · rw [List.dropWhile_cons, if_neg hp]
      exact h

theorem wsNormed_reverse (l : List Char) (h : wsNormed l) : wsNormed l.reverse := by
  obtain ⟨h1, h2⟩ := h
  refine ⟨fun c hc hw => h1 c (List.mem_reverse.mp hc) hw, ?_⟩
  rw [List.chain'_reverse]
  exact List.Chain'.imp (fun a b hab => by intro hcon; exact hab ⟨hcon.2, hcon.1⟩) h2

theorem wsNormed_trim (l : List Char) (h : wsNormed l) : wsNormed (trimL l) := by
  unfold trimL pyStripL
  exact wsNormed_reverse _ (wsNormed_dropWhile _ _ (wsNormed_reverse _ (wsNormed_dropWhile _ _ h)))

theorem trimL_tidyL (l : List Char) : trimL (tidyL l) = tidyL l := by
  unfold tidyL trimL
  exact pyStripL_idem isWsC (collapseL l)

theorem tidyL_idem (l : List Char) : tidyL (tidyL l) = tidyL l := by
  have h1 : wsNormed (tidyL l) := wsNormed_trim _ (wsNormed_collapse l)
  show trimL (collapseL (tidyL l)) = tidyL l
  rw [collapse_of_wsNormed _ h1]
  exact trimL_tidyL l

theorem dropWhile_append_all (p : Char → Bool) (l1 l2 : List Char)
    (h : ∀ c ∈ l1, p c = true) : (l1 ++ l2).dropWhile p = l2.dropWhile p := by
  induction l1 with
  | nil => rfl
  | cons c cs ih =>
    rw [List.cons_append, List.dropWhile_cons, if_pos (h c (by simp))]
    exact ih (fun d hd => h d (by simp [hd]))

theorem stripTrailingYear_decomp (p ws1 ws2 : List Char) (e1 e2 e3 e4 : Char)
    (hw1 : ∀ c ∈ ws1, isWsC c = true) (hw2 : ∀ c ∈ ws2, isWsC c = true)
    (h1 : isDigitC e1 = true) (h2 : isDigitC e2 = true) (h3 : isDigitC e3 = true)
    (h4 : isDigitC e4 = true)
    (hp : p.reverse.dropWhile isWsC = p.reverse) :
    stripTrailingYearL (p ++ ws1 ++ '(' :: e1 :: e2 :: e3 :: e4 :: ')' :: ws2) = p := by
  have hr : (p ++ ws1 ++ '(' :: e1 :: e2 :: e3 :: e4 :: ')' :: ws2).reverse =
      ws2.reverse ++ ')' :: e4 :: e3 :: e2 :: e1 :: '(' :: (ws1.reverse ++ p.reverse) := by
    simp [List.reverse_append]
  have hdw : ((p ++ ws1 ++ '(' :: e1 :: e2 :: e3 :: e4 :: ')' :: ws2).reverse).dropWhile isWsC =
      ')' :: e4 :: e3 :: e2 :: e1 :: '(' :: (ws1.reverse ++ p.reverse) := by
    rw [hr, dropWhile_append_all isWsC ws2.reverse _
      (fun c hc => hw2 c (List.mem_reverse.mp hc))]
    rw [List.dropWhile_cons, if_neg (by decide)]
  simp only [stripTrailingYearL, hdw]
  rw [if_pos (by simp [h1, h2, h3, h4])]
  rw [dropWhile_append_all isWsC ws1.reverse _ (fun c hc => hw1 c (List.mem_reverse.mp hc))]
  rw [hp, List.reverse_reverse]

/-- C6 (amended): for a title of the shape "bare title, whitespace,
(YYYY) block, trailing whitespace" — with the bare title ending in
neither whitespace nor a (YYYY) block of its own — `base_clean` removes
exactly that block and then performs the usual quote stripping and
whitespace normalization, agreeing with `base_clean` of the bare title;
and reapplying `base_clean` to an output is the identity whenever that
output retains no trailing (YYYY) block and neither begins nor ends with
a quote or space.  (Unrestricted idempotence fails: a second year block,
as in "Foo (1995) (1995)", survives the first pass and is removed by the
second.) -/
theorem c6_base_clean_amended :
    (∀ (p ws1 ws2 : List Char) (e1 e2 e3 e4 : Char),
      (∀ c ∈ ws1, isWsC c = true) → (∀ c ∈ ws2, isWsC c = true) →
      isDigitC e1 = true → isDigitC e2 = true → isDigitC e3 = true → isDigitC e4 = true →
      p.reverse.dropWhile isWsC = p.reverse →
      stripTrailingYearL p = p →
      base_cleanL (p ++ ws1 ++ '(' :: e1 :: e2 :: e3 :: e4 :: ')' :: ws2) = base_cleanL p) ∧
    (∀ l : List Char,
      stripTrailingYearL (base_cleanL l) = base_cleanL l →
      pyStripL isQuoteOrSpace (base_cleanL l) = base_cleanL l →
      base_cleanL (base_cleanL l) = base_cleanL l) := by
  constructor
  · intro p ws1 ws2 e1 e2 e3 e4 hw1 hw2 h1 h2 h3 h4 hp hpy
    unfold base_cleanL
    rw [stripTrailingYear_decomp p ws1 ws2 e1 e2 e3 e4 hw1 hw2 h1 h2 h3 h4 hp, hpy]
  · intro l h1 h2
    have ht : trimL (base_cleanL l) = base_cleanL l := trimL_tidyL _
    show tidyL (pyStripL isQuoteOrSpace (trimL (stripTrailingYearL (base_cleanL l)))) =
      base_cleanL l
    rw [h1, ht, h2]
    exact tidyL_idem _

/-- Witness for C6 at concrete inputs: "Foo (1995)" cleans to the clean
of "Foo", and reapplying `base_clean` to the output of cleaning
"Foo (1995)" changes nothing. -/
theorem c6_base_clean_witness :
    base_cleanL ("Foo".data ++ [' '] ++ '(' :: '1' :: '9' :: '9' :: '5' :: ')' :: []) =
      base_cleanL "Foo".data ∧
    base_cleanL (base_cleanL "Foo (1995)".data) = base_cleanL "Foo (1995)".data :=
  ⟨c6_base_clean_amended.1 "Foo".data [' '] [] '1' '9' '9' '5'
      (by decide) (by decide) (by decide) (by decide) (by decide) (by decide)
      (by decide) (by decide),
   c6_base_clean_amended.2 "Foo (1995)".data (by decide) (by decide)⟩

/-- C6 counterexample to the claim as stated: "Foo (1995) (1995)"
contains a trailing (YYYY) block; `base_clean` removes exactly that
block, so its output still ends in "(1995)" and a second application
changes it again — the function is not idempotent on this input. -/
theorem c6_idempotence_counterexample :
    base_clean "Foo (1995) (1995)" = "Foo (1995)" ∧
    base_clean (base_clean "Foo (1995) (1995)") = "Foo" ∧
    base_clean (base_clean "Foo (1995) (1995)") ≠ base_clean "Foo (1995) (1995)" :=
  ⟨rfl, rfl, by decide⟩
